import Mathlib

/-!
Verification of the crc-0x8810 crate (CRC-16/CCITT, polynomial 0x1021,
table-free) against its natural-language specification.

The Rust source (src/lib.rs) is shallowly embedded below: u8 / u16 values
become Nat with explicit `% 256` / `% 65536` truncations at every point where
the machine type truncates, slices become lists of bytes, and the indexed
while-loops of Algorithm::update become indexed recursive loops carrying the
in-bounds proof for each access.
-/

set_option maxRecDepth 10000

/-- Embedding of the closed-form primitive `update` (src/lib.rs lines 28-32):

    let data = data ^ (crc as u8);
    let data = data ^ (data << 4);
    (((data as u16) << 8) | (crc >> 8)) ^ ((data >> 4) as u16) ^ ((data as u16) << 3)

Every u8-typed intermediate is truncated with `% 256` and every u16-typed
expression with `% 65536`, mirroring the Rust wrapping shifts and casts. -/
def update (crc data : Nat) : Nat :=
  let data1 := (data ^^^ crc % 256) % 256
  let data2 := (data1 ^^^ (data1 <<< 4) % 256) % 256
  (((data2 <<< 8) % 65536 ||| crc >>> 8) ^^^ (data2 >>> 4) ^^^ (data2 <<< 3) % 65536) % 65536

/-- Embedding of `u8::reverse_bits` / `u16::reverse_bits`: reverse the order
of the `w` low bits of `x` (bit 0 becomes bit w-1, and so on). -/
def reverseBits (w x : Nat) : Nat :=
  (List.range w).foldl (fun acc i => 2 * acc + x / 2 ^ i % 2) 0

def reverseBits8 (x : Nat) : Nat := reverseBits 8 x

def reverseBits16 (x : Nat) : Nat := reverseBits 16 x

/-- Embedding of `struct Algorithm` (src/lib.rs lines 34-42). -/
structure Algorithm where
  init : Nat
  refin : Bool
  refout : Bool
  xorout : Nat
  check : Nat
  residue : Nat
deriving Repr, DecidableEq

/-- Embedding of the private method `Algorithm::init` (src/lib.rs lines 51-57).
(Named initReg here because the structure field is already called init.) -/
def Algorithm.initReg (a : Algorithm) : Nat :=
  if a.refin then reverseBits16 a.init else a.init

/-- The refin = true while-loop of `Algorithm::update` (src/lib.rs lines 62-65):
`while i < bytes.len() { crc = update(crc, bytes[i]); i += 1 }`.
The list access carries the loop-guard proof, exactly as the Rust index
`bytes[i]` is guarded by `i < bytes.len()`. -/
def updateLoopRef (crc : Nat) (bytes : List Nat) (i : Nat) : Nat :=
  if h : i < bytes.length then
    updateLoopRef (update crc (bytes.get ⟨i, h⟩)) bytes (i + 1)
  else crc
termination_by bytes.length - i

/-- The refin = false while-loop of `Algorithm::update` (src/lib.rs lines 67-70):
`while i < bytes.len() { crc = update(crc, bytes[i].reverse_bits()); i += 1 }`. -/
def updateLoopNonRef (crc : Nat) (bytes : List Nat) (i : Nat) : Nat :=
  if h : i < bytes.length then
    updateLoopNonRef (update crc (reverseBits8 (bytes.get ⟨i, h⟩))) bytes (i + 1)
  else crc
termination_by bytes.length - i

/-- Embedding of the private method `Algorithm::update` (src/lib.rs lines 59-73). -/
def Algorithm.update (a : Algorithm) (crc : Nat) (bytes : List Nat) : Nat :=
  if a.refin then updateLoopRef crc bytes 0 else updateLoopNonRef crc bytes 0

/-- Embedding of the private method `Algorithm::finalize` (src/lib.rs lines 75-80). -/
def Algorithm.finalize (a : Algorithm) (crc : Nat) : Nat :=
  (if !a.refout then reverseBits16 crc else crc) ^^^ a.xorout

/-- Embedding of `Algorithm::checksum` (src/lib.rs lines 45-49). -/
def Algorithm.checksum (a : Algorithm) (bytes : List Nat) : Nat :=
  a.finalize (a.update a.initReg bytes)

/-- Embedding of `struct Digest` (src/lib.rs lines 88-92); the borrowed
algorithm reference becomes a copied field. -/
structure Digest where
  algorithm : Algorithm
  value : Nat
deriving Repr, DecidableEq

/-- Embedding of `Digest::new` (src/lib.rs lines 95-98). -/
def Digest.new (algorithm : Algorithm) : Digest :=
  ⟨algorithm, algorithm.initReg⟩

/-- Embedding of `Algorithm::digest` (src/lib.rs lines 82-84). -/
def Algorithm.digest (a : Algorithm) : Digest := Digest.new a

/-- Embedding of `Digest::update` (src/lib.rs lines 100-102); the mutation of
self.value becomes returning the updated accumulator. -/
def Digest.update (d : Digest) (bytes : List Nat) : Digest :=
  ⟨d.algorithm, d.algorithm.update d.value bytes⟩

/-- Embedding of `Digest::finalize` (src/lib.rs lines 104-106). -/
def Digest.finalize (d : Digest) : Nat :=
  d.algorithm.finalize d.value

/-- CRC-16/XMODEM (src/lib.rs lines 112-119): init 0, refin false,
refout false, xorout 0, check 0x31c3, residue 0. -/
def CRC_16_XMODEM : Algorithm := ⟨0, false, false, 0, 0x31c3, 0⟩

/-- CRC-16/GENIBUS (src/lib.rs lines 124-131). -/
def CRC_16_GENIBUS : Algorithm := ⟨0xffff, false, false, 0xffff, 0xd64e, 0x1d0f⟩

/-- CRC-16/GSM (src/lib.rs lines 136-143). -/
def CRC_16_GSM : Algorithm := ⟨0, false, false, 0xffff, 0xce3c, 0x1d0f⟩

/-- CRC-16/IBM-3740 (src/lib.rs lines 148-155). -/
def CRC_16_IBM_3740 : Algorithm := ⟨0xffff, false, false, 0, 0x29b1, 0⟩

/-- Alias of CRC_16_IBM_3740 (src/lib.rs line 158). -/
def CRC_16_AUTOSAR : Algorithm := CRC_16_IBM_3740

/-- CRC-16/IBM-SDLC (src/lib.rs lines 163-170). -/
def CRC_16_IBM_SDLC : Algorithm := ⟨0xffff, true, true, 0xffff, 0x906e, 0xf0b8⟩

/-- Alias of CRC_16_IBM_SDLC (src/lib.rs line 173). -/
def CRC_16_ISO_HDLC : Algorithm := CRC_16_IBM_SDLC

/-- Alias of CRC_16_IBM_SDLC (src/lib.rs line 175). -/
def CRC_16_ISO_IEC_14443_3_B : Algorithm := CRC_16_IBM_SDLC

/-- Alias of CRC_16_IBM_SDLC (src/lib.rs line 177). -/
def CRC_16_X_25 : Algorithm := CRC_16_IBM_SDLC

/-- CRC-16/ISO-IEC-14443-3-A (src/lib.rs lines 182-189). -/
def CRC_16_ISO_IEC_14443_3_A : Algorithm := ⟨0xc6c6, true, true, 0, 0xbf05, 0⟩

/-- CRC-16/KERMIT (src/lib.rs lines 194-201). -/
def CRC_16_KERMIT : Algorithm := ⟨0, true, true, 0, 0x2189, 0⟩

/-- Alias of CRC_16_KERMIT (src/lib.rs line 204). -/
def CRC_16_CCITT : Algorithm := CRC_16_KERMIT

/-- Alias of CRC_16_XMODEM (src/lib.rs line 207). -/
def CRC_16_LORA : Algorithm := CRC_16_XMODEM

/-- The bytes of the ASCII string "123456789", the standard CRC check input. -/
def checkString : List Nat := [49, 50, 51, 52, 53, 54, 55, 56, 57]

/-! ### Spec-side model: the classical bit-at-a-time LSB-first shift register

Modelled from the spec (section 4.1 and section 8, "Primitive equivalence"):
one step of the classical LSB-first CRC-16 shift register for polynomial
0x1021 consumes one input bit, XORs it with the low bit of the register,
shifts the register right one place, and, when the mixed-out bit was 1, XORs
in the bit-reflected polynomial reverseBits16 0x1021 = 0x8408. Eight
sequential steps consume one byte, least significant bit first. -/

/-- One classical LSB-first shift-register step (polynomial 0x1021 in
reflected form). -/
def lfsrStep (crc bit : Nat) : Nat :=
  if (crc ^^^ bit) % 2 = 1 then crc / 2 ^^^ reverseBits16 0x1021 else crc / 2

/-- n sequential classical steps, consuming the data least significant bit
first. -/
def lfsrSteps : Nat → Nat → Nat → Nat
  | 0, crc, _ => crc
  | n + 1, crc, data => lfsrSteps n (lfsrStep crc (data % 2)) (data / 2)

/-- Eight sequential classical bit-at-a-time LSB-first shift-register steps:
the spec-side meaning of absorbing one byte. -/
def classicalByte (crc data : Nat) : Nat := lfsrSteps 8 crc data

/-! ### The indexed while-loops compute left folds -/

/-- The refin = true loop starting at index i folds the primitive over the
remaining bytes. -/
theorem updateLoopRef_eq_foldl (bytes : List Nat) (crc i : Nat) :
    updateLoopRef crc bytes i = (bytes.drop i).foldl update crc := by
  induction crc, bytes, i using updateLoopRef.induct with
  | case1 crc bytes i h ih =>
    rw [updateLoopRef, dif_pos h, ih, List.drop_eq_getElem_cons h, List.foldl_cons,
      List.get_eq_getElem]
  | case2 crc bytes i h =>
    rw [updateLoopRef, dif_neg h, List.drop_eq_nil_of_le (Nat.le_of_not_lt h),
      List.foldl_nil]

/-- The refin = false loop starting at index i folds the primitive composed
with byte reflection over the remaining bytes. -/
theorem updateLoopNonRef_eq_foldl (bytes : List Nat) (crc i : Nat) :
    updateLoopNonRef crc bytes i
      = (bytes.drop i).foldl (fun c b => update c (reverseBits8 b)) crc := by
  induction crc, bytes, i using updateLoopNonRef.induct with
  | case1 crc bytes i h ih =>
    rw [updateLoopNonRef, dif_pos h, ih, List.drop_eq_getElem_cons h, List.foldl_cons,
      List.get_eq_getElem]
  | case2 crc bytes i h =>
    rw [updateLoopNonRef, dif_neg h, List.drop_eq_nil_of_le (Nat.le_of_not_lt h),
      List.foldl_nil]

/-- Fold form of Algorithm.update: the primitive folded over the bytes, each
byte reflected first exactly when refin is false. -/
theorem algoUpdate_eq_foldl (a : Algorithm) (crc : Nat) (bytes : List Nat) :
    a.update crc bytes
      = bytes.foldl (fun c b => update c (if a.refin then b else reverseBits8 b)) crc := by
  unfold Algorithm.update
  cases h : a.refin with
  | true =>
    simp only [if_true, updateLoopRef_eq_foldl, List.drop_zero]
  | false =>
    simp only [Bool.false_eq_true, if_false, updateLoopNonRef_eq_foldl, List.drop_zero]

/-- Computable fold form of checksum, used to evaluate concrete check values. -/
def checksumFold (a : Algorithm) (bytes : List Nat) : Nat :=
  a.finalize (bytes.foldl (fun c b => update c (if a.refin then b else reverseBits8 b)) a.initReg)

theorem checksum_eq_fold (a : Algorithm) (bytes : List Nat) :
    a.checksum bytes = checksumFold a bytes := by
  rw [Algorithm.checksum, checksumFold, algoUpdate_eq_foldl]

example : update 0 1 = 0x1189 := by decide
example : classicalByte 0 1 = 0x1189 := by decide
example : reverseBits16 0x1021 = 0x8408 := by decide
example : CRC_16_XMODEM.checksum checkString = 0x31c3 := by
  rw [checksum_eq_fold]; decide
example : CRC_16_KERMIT.checksum checkString = 0x2189 := by
  rw [checksum_eq_fold]; decide

/-! ### XOR distributes over truncation, division and shifts -/

theorem xor_mod_pow (a b n : Nat) : (a ^^^ b) % 2 ^ n = a % 2 ^ n ^^^ b % 2 ^ n := by
  apply Nat.eq_of_testBit_eq
  intro i
  simp only [Nat.testBit_mod_two_pow, Nat.testBit_xor]
  by_cases h : i < n <;> simp [h]

theorem xor_div_pow (a b n : Nat) : (a ^^^ b) / 2 ^ n = a / 2 ^ n ^^^ b / 2 ^ n := by
  apply Nat.eq_of_testBit_eq
  intro i
  rw [← Nat.shiftRight_eq_div_pow, ← Nat.shiftRight_eq_div_pow, ← Nat.shiftRight_eq_div_pow]
  simp [Nat.testBit_shiftRight, Nat.testBit_xor]

theorem xor_shiftRight (a b n : Nat) : (a ^^^ b) >>> n = a >>> n ^^^ b >>> n := by
  simp [Nat.shiftRight_eq_div_pow, xor_div_pow]

theorem xor_mod_two (a b : Nat) : (a ^^^ b) % 2 = a % 2 ^^^ b % 2 := by
  have h := xor_mod_pow a b 1
  simpa using h

theorem xor_div_two (a b : Nat) : (a ^^^ b) / 2 = a / 2 ^^^ b / 2 := by
  have h := xor_div_pow a b 1
  simpa using h

theorem xor_left_comm (a b c : Nat) : a ^^^ (b ^^^ c) = b ^^^ (a ^^^ c) := by
  rw [← Nat.xor_assoc, Nat.xor_comm a b, Nat.xor_assoc]

theorem xor_cancel_left (a b : Nat) : a ^^^ (a ^^^ b) = b := by
  rw [← Nat.xor_assoc, Nat.xor_self, Nat.zero_xor]

theorem xor_cancel_right (a b : Nat) : (a ^^^ b) ^^^ b = a := by
  rw [Nat.xor_assoc, Nat.xor_self, Nat.xor_zero]

/-- Bitwise or of values with no common set bit is bitwise xor. -/
theorem or_eq_xor_of_disjoint {x y : Nat}
    (h : ∀ i, x.testBit i = true → y.testBit i = false) : x ||| y = x ^^^ y := by
  apply Nat.eq_of_testBit_eq
  intro i
  rw [Nat.testBit_or, Nat.testBit_xor]
  cases hx : x.testBit i with
  | true => simp [h i hx]
  | false => simp

theorem xor_lt_65536 {x y : Nat} (hx : x < 65536) (hy : y < 65536) : x ^^^ y < 65536 := by
  have h : (65536 : Nat) = 2 ^ 16 := by norm_num
  rw [h] at hx hy ⊢
  exact Nat.xor_lt_two_pow hx hy

/-! ### Structure of the closed-form primitive

The primitive reads its crc argument only through crc % 256 (xored into the
data byte) and crc >>> 8 (ored into the low byte of the result). -/

/-- The tail of the primitive after the data byte has absorbed the low byte of
the register. -/
def updAux (data1 hi : Nat) : Nat :=
  let data2 := (data1 ^^^ (data1 <<< 4) % 256) % 256
  (((data2 <<< 8) % 65536 ||| hi) ^^^ (data2 >>> 4) ^^^ (data2 <<< 3) % 65536) % 65536

theorem update_eq_aux (crc data : Nat) :
    update crc data = updAux ((data ^^^ crc % 256) % 256) (crc >>> 8) := rfl

/-- The high-byte input of the primitive is just xored into the low byte of
the result. -/
theorem updAux_hi (d1 h : Nat) (hh : h < 256) : updAux d1 h = updAux d1 0 ^^^ h := by
  simp only [updAux]
  set m := (d1 ^^^ (d1 <<< 4) % 256) % 256 with hm
  have hmlt : m < 256 := Nat.mod_lt _ (by norm_num)
  have hX : (m <<< 8) % 65536 ||| h = (m <<< 8) % 65536 ^^^ h := by
    apply or_eq_xor_of_disjoint
    intro i hx
    by_cases hi : i < 8
    · exfalso
      have : ((m <<< 8) % 65536).testBit i = false := by
        have h65536 : (65536 : Nat) = 2 ^ 16 := by norm_num
        rw [h65536, Nat.testBit_mod_two_pow, Nat.testBit_shiftLeft]
        simp [Nat.not_le.mpr hi]
      rw [this] at hx
      exact Bool.false_ne_true hx
    · refine Nat.testBit_lt_two_pow (lt_of_lt_of_le hh ?_)
      calc (256 : Nat) = 2 ^ 8 := by norm_num
        _ ≤ 2 ^ i := Nat.pow_le_pow_right (by norm_num) (Nat.le_of_not_lt hi)
  have hX0 : (m <<< 8) % 65536 ||| 0 = (m <<< 8) % 65536 := Nat.or_zero _
  rw [hX, hX0]
  have hXlt : (m <<< 8) % 65536 < 65536 := Nat.mod_lt _ (by norm_num)
  have hAlt : m >>> 4 < 65536 := by
    calc m >>> 4 ≤ m := by rw [Nat.shiftRight_eq_div_pow]; exact Nat.div_le_self _ _
    _ < 65536 := lt_trans hmlt (by norm_num)
  have hBlt : (m <<< 3) % 65536 < 65536 := Nat.mod_lt _ (by norm_num)
  have hhlt : h < 65536 := lt_trans hh (by norm_num)
  have hbig : ((m <<< 8) % 65536 ^^^ h) ^^^ m >>> 4 ^^^ (m <<< 3) % 65536
      = ((m <<< 8) % 65536 ^^^ m >>> 4 ^^^ (m <<< 3) % 65536) ^^^ h := by
    simp only [Nat.xor_assoc]
    rw [xor_left_comm h (m >>> 4)]
    rw [Nat.xor_comm h ((m <<< 3) % 65536)]
  rw [hbig]
  have hlt1 : (m <<< 8) % 65536 ^^^ m >>> 4 ^^^ (m <<< 3) % 65536 < 65536 :=
    xor_lt_65536 (xor_lt_65536 hXlt hAlt) hBlt
  rw [Nat.mod_eq_of_lt (xor_lt_65536 hlt1 hhlt), Nat.mod_eq_of_lt hlt1]

/-- Absorbing a byte d into the register is xoring d into the low byte of the
register and absorbing zero. -/
theorem updXor (c d : Nat) (hd : d < 256) : update c d = update (c ^^^ d) 0 := by
  rw [update_eq_aux, update_eq_aux]
  have h256 : (256 : Nat) = 2 ^ 8 := by norm_num
  have hxd : (c ^^^ d) % 256 = c % 256 ^^^ d := by
    rw [h256, xor_mod_pow, ← h256, Nat.mod_eq_of_lt hd]
  have harg1 : (d ^^^ c % 256) % 256 = (0 ^^^ (c ^^^ d) % 256) % 256 := by
    rw [Nat.xor_comm d (c % 256), Nat.zero_xor, hxd]
  have harg2 : c >>> 8 = (c ^^^ d) >>> 8 := by
    rw [xor_shiftRight]
    have : d >>> 8 = 0 := by
      rw [Nat.shiftRight_eq_div_pow]
      exact Nat.div_eq_of_lt (by calc d < 256 := hd
        _ = 2 ^ 8 := h256)
    rw [this, Nat.xor_zero]
  rw [harg1, harg2]

/-! ### Structure of the classical shift register -/

/-- One classical step with a zero input bit is xor-linear in the register. -/
theorem lfsrStepLin (a b : Nat) : lfsrStep (a ^^^ b) 0 = lfsrStep a 0 ^^^ lfsrStep b 0 := by
  unfold lfsrStep
  simp only [Nat.xor_zero]
  rw [xor_mod_two]
  rcases Nat.mod_two_eq_zero_or_one a with ha | ha <;>
    rcases Nat.mod_two_eq_zero_or_one b with hb | hb <;>
      rw [ha, hb] <;>
        simp [xor_div_two, Nat.xor_assoc, Nat.xor_comm, xor_left_comm, Nat.xor_self,
          Nat.xor_zero, Nat.zero_xor, xor_cancel_left]

/-- Classical steps with zero input bits are xor-linear in the register. -/
theorem lfsrStepsLin : ∀ n a b, lfsrSteps n (a ^^^ b) 0 = lfsrSteps n a 0 ^^^ lfsrSteps n b 0 := by
  intro n
  induction n with
  | zero => intro a b; rfl
  | succ n ih =>
    intro a b
    simp only [lfsrSteps, Nat.zero_mod, Nat.zero_div]
    rw [lfsrStepLin]
    exact ih _ _

/-- Xoring the data into the register and stepping with a zero bit is the same
as stepping with the low data bit, with the rest of the data kept aside. -/
theorem lfsrStepData (c d : Nat) : lfsrStep (c ^^^ d) 0 = lfsrStep c (d % 2) ^^^ d / 2 := by
  unfold lfsrStep
  simp only [Nat.xor_zero]
  rw [xor_mod_two, xor_mod_two c (d % 2), Nat.mod_mod_of_dvd d (dvd_refl 2)]
  by_cases h : c % 2 ^^^ d % 2 = 1
  · rw [if_pos h, if_pos h, xor_div_two]
    simp [Nat.xor_assoc, Nat.xor_comm, xor_left_comm]
  · rw [if_neg h, if_neg h, xor_div_two]

/-- Pre-xoring the whole data byte into the register and stepping n times with
zero bits equals stepping n times against the data. -/
theorem lfsrStepsData : ∀ n c d, lfsrSteps n (c ^^^ d) 0 = lfsrSteps n c d ^^^ d / 2 ^ n := by
  intro n
  induction n with
  | zero => intro c d; simp [lfsrSteps]
  | succ n ih =>
    intro c d
    simp only [lfsrSteps, Nat.zero_mod, Nat.zero_div]
    rw [lfsrStepData, ih, Nat.div_div_eq_div_mul]
    congr 2
    rw [Nat.pow_succ, Nat.mul_comm]

/-- Absorbing a byte into the classical register is xoring it into the low
byte and absorbing zero. -/
theorem classicalXor (c d : Nat) (hd : d < 256) : classicalByte c d = classicalByte (c ^^^ d) 0 := by
  unfold classicalByte
  rw [lfsrStepsData 8 c d]
  have hd8 : d / 2 ^ 8 = 0 := by
    apply Nat.div_eq_of_lt
    calc d < 256 := hd
      _ ≤ 2 ^ 8 := by norm_num
  rw [hd8, Nat.xor_zero]

/-- Low byte and high byte recombine by xor. -/
theorem mod_xor_shift (c : Nat) : c % 256 ^^^ (c >>> 8) <<< 8 = c := by
  apply Nat.eq_of_testBit_eq
  intro i
  rw [Nat.testBit_xor, Nat.testBit_shiftLeft, Nat.testBit_shiftRight]
  have h256 : (256 : Nat) = 2 ^ 8 := by norm_num
  rw [h256, Nat.testBit_mod_two_pow]
  by_cases h : i < 8
  · simp [h, Nat.not_le.mpr h]
  · have h8 : 8 + (i - 8) = i := by omega
    simp [h, Nat.le_of_not_lt h, h8]

/-- The exhaustive base case on the low byte: the closed-form primitive and
eight classical steps agree on every 8-bit register with zero data. -/
theorem baseLow : ∀ l < 256, update l 0 = classicalByte l 0 := by decide

/-- Eight classical steps with zero data shift a pure high byte down unchanged. -/
theorem baseHigh : ∀ h < 256, classicalByte (h <<< 8) 0 = h := by decide

/-- Splitting the register for the classical side. -/
theorem splitC (c : Nat) (hc : c < 65536) :
    classicalByte c 0 = classicalByte (c % 256) 0 ^^^ c >>> 8 := by
  have hhi : c >>> 8 < 256 := by
    rw [Nat.shiftRight_eq_div_pow]
    have h28 : (2 : Nat) ^ 8 = 256 := by norm_num
    rw [h28]
    omega
  calc classicalByte c 0 = classicalByte (c % 256 ^^^ (c >>> 8) <<< 8) 0 := by
        rw [mod_xor_shift]
    _ = classicalByte (c % 256) 0 ^^^ classicalByte ((c >>> 8) <<< 8) 0 := by
        unfold classicalByte
        exact lfsrStepsLin 8 _ _
    _ = classicalByte (c % 256) 0 ^^^ c >>> 8 := by
        rw [baseHigh (c >>> 8) hhi]

/-- Splitting the register: the primitive on (crc, 0) is the primitive on the
low byte of crc, xored with the high byte of crc. -/
theorem splitU (c : Nat) (hc : c < 65536) : update c 0 = update (c % 256) 0 ^^^ c >>> 8 := by
  rw [update_eq_aux c 0, update_eq_aux (c % 256) 0]
  have e1 : (0 ^^^ c % 256 % 256) % 256 = (0 ^^^ c % 256) % 256 := by
    simp [Nat.mod_mod_of_dvd]
  have e2 : (c % 256) >>> 8 = 0 := by
    rw [Nat.shiftRight_eq_div_pow]
    have h28 : (2 : Nat) ^ 8 = 256 := by norm_num
    rw [h28]
    exact Nat.div_eq_of_lt (Nat.mod_lt _ (by norm_num))
  rw [e1, e2]
  apply updAux_hi
  rw [Nat.shiftRight_eq_div_pow]
  have h28 : (2 : Nat) ^ 8 = 256 := by norm_num
  rw [h28]
  omega

/-- For every 16-bit register, the closed-form primitive and eight classical
steps agree on zero data. -/
theorem main0 (c : Nat) (hc : c < 65536) : update c 0 = classicalByte c 0 := by
  rw [splitU c hc, splitC c hc, baseLow (c % 256) (Nat.mod_lt _ (by norm_num))]

/-! ### Properties of bit reversal -/

theorem reverseBits_succ (w x : Nat) :
    reverseBits (w + 1) x = 2 * reverseBits w x + x / 2 ^ w % 2 := by
  unfold reverseBits
  rw [List.range_succ, List.foldl_append, List.foldl_cons, List.foldl_nil]

theorem reverseBits_lt (w x : Nat) : reverseBits w x < 2 ^ w := by
  induction w with
  | zero => simp [reverseBits]
  | succ w ih =>
    rw [reverseBits_succ]
    have hb : x / 2 ^ w % 2 < 2 := Nat.mod_lt _ (by norm_num)
    rw [Nat.pow_succ]
    omega

/-- Bit i of the w-bit reversal of x is bit w-1-i of x: reverseBits really
reverses the bit order. -/
theorem reverseBits_testBit (w : Nat) (x : Nat) : ∀ i, i < w →
    (reverseBits w x).testBit i = x.testBit (w - 1 - i) := by
  induction w with
  | zero => intro i h; omega
  | succ w ih =>
    intro i h
    rw [reverseBits_succ]
    cases i with
    | zero =>
      rw [Nat.testBit_zero]
      have hb : x / 2 ^ w % 2 < 2 := Nat.mod_lt _ (by norm_num)
      have hmod : (2 * reverseBits w x + x / 2 ^ w % 2) % 2 = x / 2 ^ w % 2 := by omega
      rw [hmod, Nat.testBit_to_div_mod]
      congr 1
    | succ j =>
      rw [Nat.testBit_add_one]
      have hb : x / 2 ^ w % 2 < 2 := Nat.mod_lt _ (by norm_num)
      have hdiv : (2 * reverseBits w x + x / 2 ^ w % 2) / 2 = reverseBits w x := by omega
      rw [hdiv, ih j (by omega)]
      congr 1
      omega

theorem reverseBits16_lt (x : Nat) : reverseBits16 x < 65536 := by
  have h := reverseBits_lt 16 x
  have e : (2 : Nat) ^ 16 = 65536 := by norm_num
  rw [e] at h
  exact h

/-! ### Boundedness of the engine operations -/

theorem update_lt (crc data : Nat) : update crc data < 65536 := by
  unfold update
  exact Nat.mod_lt _ (by norm_num)

theorem initReg_lt (a : Algorithm) (h : a.init < 65536) : a.initReg < 65536 := by
  unfold Algorithm.initReg
  cases a.refin
  · simpa using h
  · simpa using reverseBits16_lt a.init

theorem algoUpdate_lt (a : Algorithm) (crc : Nat) (bytes : List Nat) (h : crc < 65536) :
    a.update crc bytes < 65536 := by
  rw [algoUpdate_eq_foldl]
  induction bytes generalizing crc with
  | nil => exact h
  | cons b bs ih =>
    rw [List.foldl_cons]
    exact ih _ (update_lt _ _)

theorem finalize_lt (a : Algorithm) (crc : Nat) (hc : crc < 65536) (hx : a.xorout < 65536) :
    a.finalize crc < 65536 := by
  unfold Algorithm.finalize
  cases a.refout
  · simpa using xor_lt_65536 (reverseBits16_lt crc) hx
  · simpa using xor_lt_65536 hc hx

/-! ### Engine update as a fold, and composition over concatenation -/

theorem algoUpdate_nil (a : Algorithm) (crc : Nat) : a.update crc [] = crc := by
  rw [algoUpdate_eq_foldl, List.foldl_nil]

theorem algoUpdate_append (a : Algorithm) (crc : Nat) (xs ys : List Nat) :
    a.update crc (xs ++ ys) = a.update (a.update crc xs) ys := by
  simp [algoUpdate_eq_foldl, List.foldl_append]

/-- Folding Digest.update over a list of chunks accumulates the engine update
of the concatenation, with the algorithm unchanged. -/
theorem digest_foldl (chunks : List (List Nat)) : ∀ d : Digest,
    chunks.foldl Digest.update d
      = ⟨d.algorithm, d.algorithm.update d.value chunks.flatten⟩ := by
  induction chunks with
  | nil =>
    intro d
    cases d
    simp [algoUpdate_nil]
  | cons c cs ih =>
    intro d
    rw [List.foldl_cons, List.flatten_cons, ih]
    simp [Digest.update, algoUpdate_append]

/-! ### Inverting the primitive (injectivity in the register) -/

/-- Recover the low byte of the register fed to the primitive from the
primitive's output (for zero data): undo the nibble mix from the high byte. -/
def recoverLow (y : Nat) : Nat :=
  let m := (y >>> 8) ^^^ (y >>> 13)
  (m ^^^ (m <<< 4)) % 256

theorem recoverLow_update : ∀ l < 256, recoverLow (update l 0) = l := by decide

/-- recoverLow only looks at bits 8 and above, so xoring a byte into the low
byte of its argument does not change it. -/
theorem recoverLow_xor_low (x h : Nat) (hh : h < 256) : recoverLow (x ^^^ h) = recoverLow x := by
  unfold recoverLow
  have hdiv : ∀ k, 8 ≤ k → h >>> k = 0 := by
    intro k hk
    rw [Nat.shiftRight_eq_div_pow]
    apply Nat.div_eq_of_lt
    calc h < 256 := hh
      _ = 2 ^ 8 := by norm_num
      _ ≤ 2 ^ k := Nat.pow_le_pow_right (by norm_num) hk
  have h8 : (x ^^^ h) >>> 8 = x >>> 8 := by
    rw [xor_shiftRight, hdiv 8 (by norm_num), Nat.xor_zero]
  have h13 : (x ^^^ h) >>> 13 = x >>> 13 := by
    rw [xor_shiftRight, hdiv 13 (by norm_num), Nat.xor_zero]
  rw [h8, h13]

/-! ### The claims -/

/-- Claim C1: for every named catalogued variant, Algorithm.checksum applied
to the ASCII bytes of "123456789" equals that variant's check field;
concretely XMODEM gives 0x31C3, KERMIT 0x2189, IBM-SDLC 0x906E, GENIBUS
0xD64E, GSM 0xCE3C, IBM-3740 0x29B1 and ISO-IEC-14443-3-A 0xBF05. -/
theorem c1_check_conformance :
    (CRC_16_XMODEM.checksum checkString = CRC_16_XMODEM.check
      ∧ CRC_16_XMODEM.check = 0x31c3) ∧
    (CRC_16_KERMIT.checksum checkString = CRC_16_KERMIT.check
      ∧ CRC_16_KERMIT.check = 0x2189) ∧
    (CRC_16_IBM_SDLC.checksum checkString = CRC_16_IBM_SDLC.check
      ∧ CRC_16_IBM_SDLC.check = 0x906e) ∧
    (CRC_16_GENIBUS.checksum checkString = CRC_16_GENIBUS.check
      ∧ CRC_16_GENIBUS.check = 0xd64e) ∧
    (CRC_16_GSM.checksum checkString = CRC_16_GSM.check
      ∧ CRC_16_GSM.check = 0xce3c) ∧
    (CRC_16_IBM_3740.checksum checkString = CRC_16_IBM_3740.check
      ∧ CRC_16_IBM_3740.check = 0x29b1) ∧
    (CRC_16_ISO_IEC_14443_3_A.checksum checkString = CRC_16_ISO_IEC_14443_3_A.check
      ∧ CRC_16_ISO_IEC_14443_3_A.check = 0xbf05) := by
  simp only [checksum_eq_fold]
  decide

/-- Claim C2: for every 16-bit register value crc and every byte value data,
the closed-form primitive update (crc, data) equals eight sequential classical
bit-at-a-time LSB-first shift-register steps (polynomial 0x1021, reflected
form 0x8408) applied to crc against data. -/
theorem c2_primitive_equiv (crc data : Nat) (hc : crc < 65536) (hd : data < 256) :
    update crc data = classicalByte crc data := by
  rw [updXor crc data hd, classicalXor crc data hd]
  exact main0 (crc ^^^ data) (xor_lt_65536 hc (lt_trans hd (by norm_num)))

theorem c2_primitive_equiv_witness :
    (0x1234 : Nat) < 65536 ∧ (0x56 : Nat) < 256
      ∧ update 0x1234 0x56 = classicalByte 0x1234 0x56 :=
  ⟨by decide, by decide, c2_primitive_equiv 0x1234 0x56 (by decide) (by decide)⟩

/-- Claim C3: for every Algorithm, every byte sequence and every partition of
it into contiguous chunks (any number, any sizes, empty chunks allowed),
building a Digest, feeding the chunks in order through Digest.update and then
Digest.finalize gives the same value as the one-shot Algorithm.checksum of the
concatenation. -/
theorem c3_streaming_equiv (a : Algorithm) (chunks : List (List Nat)) :
    (chunks.foldl Digest.update a.digest).finalize = a.checksum chunks.flatten := by
  rw [digest_foldl]
  rfl

/-- Claim C4: Algorithm.initReg returns the init field bit-reflected (16-bit
bit-order reversal, as witnessed bitwise by the last conjunct) when refin is
true, and returns init unchanged when refin is false. -/
theorem c4_init_reflection (a : Algorithm) :
    (a.refin = true → a.initReg = reverseBits16 a.init) ∧
    (a.refin = false → a.initReg = a.init) ∧
    (∀ i, i < 16 → (reverseBits16 a.init).testBit i = a.init.testBit (15 - i)) := by
  refine ⟨fun h => ?_, fun h => ?_, fun i hi => ?_⟩
  · rw [Algorithm.initReg, h, if_pos rfl]
  · rw [Algorithm.initReg, h]
    simp
  · have := reverseBits_testBit 16 a.init i hi
    rw [reverseBits16, this]

theorem c4_init_reflection_witness :
    (CRC_16_IBM_SDLC.refin = true
      ∧ CRC_16_IBM_SDLC.initReg = reverseBits16 CRC_16_IBM_SDLC.init) ∧
    (CRC_16_XMODEM.refin = false ∧ CRC_16_XMODEM.initReg = CRC_16_XMODEM.init) ∧
    ((0 : Nat) < 16 ∧ (reverseBits16 CRC_16_ISO_IEC_14443_3_A.init).testBit 0
      = CRC_16_ISO_IEC_14443_3_A.init.testBit (15 - 0)) :=
  ⟨⟨rfl, (c4_init_reflection CRC_16_IBM_SDLC).1 rfl⟩,
   ⟨rfl, (c4_init_reflection CRC_16_XMODEM).2.1 rfl⟩,
   ⟨by decide, (c4_init_reflection CRC_16_ISO_IEC_14443_3_A).2.2 0 (by decide)⟩⟩

/-- Claim C5: for every Algorithm, starting register and byte sequence, the
engine's update is the left fold of the primitive over the bytes in order,
each byte bit-reflected (8-bit reversal) when refin is false and passed
unchanged when refin is true. -/
theorem c5_update_fold (a : Algorithm) (crc : Nat) (bytes : List Nat) :
    a.update crc bytes
      = bytes.foldl (fun c b => update c (if a.refin then b else reverseBits8 b)) crc :=
  algoUpdate_eq_foldl a crc bytes

/-- Claim C6: Algorithm.finalize returns the register bit-reflected when
refout is false and unchanged when refout is true, in either case xored with
the xorout field. -/
theorem c6_finalize_spec (a : Algorithm) (crc : Nat) :
    (a.refout = false → a.finalize crc = reverseBits16 crc ^^^ a.xorout) ∧
    (a.refout = true → a.finalize crc = crc ^^^ a.xorout) := by
  constructor <;> intro h <;> simp [Algorithm.finalize, h]

theorem c6_finalize_spec_witness :
    (CRC_16_XMODEM.refout = false
      ∧ CRC_16_XMODEM.finalize 0x1234 = reverseBits16 0x1234 ^^^ CRC_16_XMODEM.xorout) ∧
    (CRC_16_KERMIT.refout = true
      ∧ CRC_16_KERMIT.finalize 0x1234 = 0x1234 ^^^ CRC_16_KERMIT.xorout) :=
  ⟨⟨rfl, (c6_finalize_spec CRC_16_XMODEM 0x1234).1 rfl⟩,
   ⟨rfl, (c6_finalize_spec CRC_16_KERMIT 0x1234).2 rfl⟩⟩

/-- Claim C7: for every Algorithm, checksum of the empty byte sequence equals
finalize (initReg) with no bytes folded in; concretely XMODEM and KERMIT both
give 0x0000 on empty input. -/
theorem c7_empty_input :
    (∀ a : Algorithm, a.checksum [] = a.finalize a.initReg) ∧
    CRC_16_XMODEM.checksum [] = 0 ∧ CRC_16_KERMIT.checksum [] = 0 := by
  refine ⟨fun a => ?_, ?_, ?_⟩
  · rw [Algorithm.checksum, algoUpdate_nil]
  · rw [checksum_eq_fold]; decide
  · rw [checksum_eq_fold]; decide

/-- Claim C8: the check and residue fields never influence computation: two
Algorithms agreeing on init, refin, refout and xorout produce identical
checksums on every byte sequence, and identical Digest states and final
values for every sequence of Digest.update calls. -/
theorem c8_check_residue_unused (a1 a2 : Algorithm)
    (hinit : a1.init = a2.init) (hrefin : a1.refin = a2.refin)
    (hrefout : a1.refout = a2.refout) (hxorout : a1.xorout = a2.xorout) :
    (∀ bytes : List Nat, a1.checksum bytes = a2.checksum bytes) ∧
    (∀ chunks : List (List Nat),
      (chunks.foldl Digest.update a1.digest).value
        = (chunks.foldl Digest.update a2.digest).value ∧
      (chunks.foldl Digest.update a1.digest).finalize
        = (chunks.foldl Digest.update a2.digest).finalize) := by
  have hinitReg : a1.initReg = a2.initReg := by
    simp only [Algorithm.initReg, hrefin, hinit]
  have hupd : ∀ crc bytes, a1.update crc bytes = a2.update crc bytes := by
    intro crc bytes
    simp only [Algorithm.update, hrefin]
  have hfin : ∀ crc, a1.finalize crc = a2.finalize crc := by
    intro crc
    simp only [Algorithm.finalize, hrefout, hxorout]
  constructor
  · intro bytes
    rw [Algorithm.checksum, Algorithm.checksum, hinitReg, hupd, hfin]
  · intro chunks
    rw [digest_foldl, digest_foldl]
    simp only [Algorithm.digest, Digest.new, Digest.finalize]
    exact ⟨by rw [hinitReg, hupd], by rw [hinitReg, hupd, hfin]⟩

theorem c8_check_residue_unused_witness :
    CRC_16_XMODEM.checksum checkString
      = (⟨0, false, false, 0, 0xdead, 0xbeef⟩ : Algorithm).checksum checkString :=
  (c8_check_residue_unused CRC_16_XMODEM ⟨0, false, false, 0, 0xdead, 0xbeef⟩
    rfl rfl rfl rfl).1 checkString

/-- Claim C9: every operation is total and returns a 16-bit value on every
input: the primitive always lands below 65536, and so do checksum and the
digest pipeline whenever the configured init and xorout fields are 16-bit.
(Totality itself is intrinsic: the embedded while-loops carry the in-bounds
proof for every bytes[i] access and terminate on bytes.length - i.) -/
theorem c9_total (a : Algorithm) (bytes : List Nat) (chunks : List (List Nat)) (crc data : Nat)
    (hinit : a.init < 65536) (hxorout : a.xorout < 65536) :
    update crc data < 65536 ∧ a.checksum bytes < 65536 ∧
      (chunks.foldl Digest.update a.digest).finalize < 65536 := by
  refine ⟨update_lt _ _, ?_, ?_⟩
  · exact finalize_lt a _ (algoUpdate_lt a _ bytes (initReg_lt a hinit)) hxorout
  · rw [digest_foldl]
    simp only [Algorithm.digest, Digest.new, Digest.finalize]
    exact finalize_lt a _ (algoUpdate_lt a _ _ (initReg_lt a hinit)) hxorout

theorem c9_total_witness :
    CRC_16_GENIBUS.init < 65536 ∧ CRC_16_GENIBUS.xorout < 65536 ∧
      (update 3 7 < 65536 ∧ CRC_16_GENIBUS.checksum checkString < 65536 ∧
        (([checkString] : List (List Nat)).foldl Digest.update
            CRC_16_GENIBUS.digest).finalize < 65536) :=
  ⟨by decide, by decide,
    c9_total CRC_16_GENIBUS checkString [checkString] 3 7 (by decide) (by decide)⟩

/-- Claim C10: for every fixed data byte, the primitive is injective in the
16-bit register (and maps 16-bit registers to 16-bit values, hence is a
bijection on the 65536 register values): distinct registers never collapse
after absorbing the same byte. -/
theorem c10_update_injective (d c1 c2 : Nat) (hd : d < 256)
    (h1 : c1 < 65536) (h2 : c2 < 65536) :
    update c1 d < 65536 ∧ (update c1 d = update c2 d → c1 = c2) := by
  refine ⟨update_lt _ _, fun heq => ?_⟩
  rw [updXor c1 d hd, updXor c2 d hd] at heq
  set x1 := c1 ^^^ d with hx1
  set x2 := c2 ^^^ d with hx2
  have hd65536 : d < 65536 := lt_trans hd (by norm_num)
  have hx1lt : x1 < 65536 := xor_lt_65536 h1 hd65536
  have hx2lt : x2 < 65536 := xor_lt_65536 h2 hd65536
  rw [splitU x1 hx1lt, splitU x2 hx2lt] at heq
  have h28 : (2 : Nat) ^ 8 = 256 := by norm_num
  have hhi1 : x1 >>> 8 < 256 := by
    rw [Nat.shiftRight_eq_div_pow, h28]; omega
  have hhi2 : x2 >>> 8 < 256 := by
    rw [Nat.shiftRight_eq_div_pow, h28]; omega
  have hlow : x1 % 256 = x2 % 256 := by
    calc x1 % 256 = recoverLow (update (x1 % 256) 0 ^^^ x1 >>> 8) := by
          rw [recoverLow_xor_low _ _ hhi1,
            recoverLow_update (x1 % 256) (Nat.mod_lt _ (by norm_num))]
      _ = recoverLow (update (x2 % 256) 0 ^^^ x2 >>> 8) := by rw [heq]
      _ = x2 % 256 := by
          rw [recoverLow_xor_low _ _ hhi2,
            recoverLow_update (x2 % 256) (Nat.mod_lt _ (by norm_num))]
  rw [hlow] at heq
  have hhi : x1 >>> 8 = x2 >>> 8 := by
    calc x1 >>> 8
        = update (x2 % 256) 0 ^^^ (update (x2 % 256) 0 ^^^ x1 >>> 8) :=
          (xor_cancel_left _ _).symm
      _ = update (x2 % 256) 0 ^^^ (update (x2 % 256) 0 ^^^ x2 >>> 8) := by rw [heq]
      _ = x2 >>> 8 := xor_cancel_left _ _
  have hx12 : x1 = x2 := by
    rw [Nat.shiftRight_eq_div_pow, Nat.shiftRight_eq_div_pow, h28] at hhi
    omega
  calc c1 = x1 ^^^ d := by rw [hx1, xor_cancel_right]
    _ = x2 ^^^ d := by rw [hx12]
    _ = c2 := by rw [hx2, xor_cancel_right]

theorem c10_update_injective_witness :
    (7 : Nat) < 256 ∧ (3 : Nat) < 65536
      ∧ update 3 7 < 65536 ∧ (update 3 7 = update 3 7 → (3 : Nat) = 3) :=
  ⟨by decide, by decide, c10_update_injective 7 3 3 (by decide) (by decide) (by decide)⟩
